import Mathlib

/-!
Verification of the volumetric classification and point-cloud extraction
pipeline of the Brain-Tumor-3D repository (src/app.py).

Intensities are modelled as rationals.  numpy float division by zero does
not raise: it produces NaN or Inf with only a warning; we model such
non-real results as `none` of an `Option` type.  The random subsample drawn
by `np.random.choice(len, num, replace=False)` is modelled by an explicit
index list parameter, constrained (where a claim needs it) to the exact
properties `choice` guarantees: the requested length, no repeated index,
all indices in range.
-/

/-- Python `int()` applied to a real number: truncation toward zero.
On a rational in lowest terms with positive denominator this is
truncating integer division of numerator by denominator. -/
def pyInt (q : ℚ) : ℤ := q.num.tdiv q.den

/-- numpy float division, with `none` standing for the NaN/Inf produced on a
zero denominator (numpy emits a RuntimeWarning, not an exception). -/
def npDiv (a b : ℚ) : Option ℚ := if b = 0 then none else some (a / b)

/-- Binary minimum written with an explicit comparison so that it evaluates
by kernel reduction. -/
def rmin (a b : ℚ) : ℚ := if b ≤ a then b else a

/-- Binary maximum written with an explicit comparison. -/
def rmax (a b : ℚ) : ℚ := if a ≤ b then b else a

/-- A 3-D intensity array of shape `(nx, ny, nz)`; `data` is total, only the
values at coordinates below the shape are meaningful. -/
structure Volume where
  nx : ℕ
  ny : ℕ
  nz : ℕ
  data : ℕ → ℕ → ℕ → ℚ

/-- All voxel coordinates of the volume, in C (row-major) scan order: the
order in which numpy enumerates them, in particular the order of `np.where`. -/
def Volume.coords (v : Volume) : List (ℕ × ℕ × ℕ) :=
  (List.range v.nx).flatMap fun x =>
    (List.range v.ny).flatMap fun y =>
      (List.range v.nz).map fun z => (x, y, z)

/-- All voxel values in scan order. -/
def Volume.values (v : Volume) : List ℚ :=
  v.coords.map fun c => v.data c.1 c.2.1 c.2.2

/-- Model of `np.min` over a volume (0 on the empty volume, which numpy rejects;
claims about it assume a nonempty volume). -/
def npMin (v : Volume) : ℚ :=
  match v.values with
  | [] => 0
  | x :: xs => xs.foldl rmin x

/-- Model of `np.max` over a volume. -/
def npMax (v : Volume) : ℚ :=
  match v.values with
  | [] => 0
  | x :: xs => xs.foldl rmax x

/-- Embedding of `normalize_data` (src/app.py lines 16-18):
`(mri_data - np.min(mri_data)) / (np.max(mri_data) - np.min(mri_data))`,
pointwise; no check of the denominator is performed by the source. -/
def normalize_data (v : Volume) : ℕ → ℕ → ℕ → Option ℚ :=
  fun x y z => npDiv (v.data x y z - npMin v) (npMax v - npMin v)

/-- Embedding of the normalization performed inside `save_visualization`
(src/streamlit.py lines 28-29): `mri_data = mri_data / np.max(mri_data)`,
pointwise; the minimum is never subtracted and no check of the denominator
is performed by the source. -/
def save_visualization_normalize (v : Volume) : ℕ → ℕ → ℕ → Option ℚ :=
  fun x y z => npDiv (v.data x y z) (npMax v)

/-- Python truncation of an integer is that integer. -/
theorem pyInt_intCast (n : ℤ) : pyInt ((n : ℚ)) = n := by
  rw [pyInt, Rat.num_intCast, Rat.den_intCast]
  exact Int.tdiv_one n

/-- On a nonnegative rational, Python truncation agrees with the floor. -/
theorem pyInt_eq_floor (q : ℚ) (h : 0 ≤ q) : pyInt q = ⌊q⌋ := by
  rw [pyInt, Int.tdiv_eq_ediv (Rat.num_nonneg.mpr h) (Int.ofNat_nonneg q.den),
    Rat.floor_def]

-- sanity checks on small closed inputs
example : pyInt 3 = 3 := by decide
example : npDiv 3 0 = none := by decide

/-- A flat (constant) 2x1x1 volume: the degenerate input for min-max. -/
def flatVol : Volume := ⟨2, 1, 1, fun _ _ _ => 7⟩

example : npMin flatVol = 7 := by decide
example : npMax flatVol = 7 := by decide

/-- Voxelwise `brain_mask` (src/app.py line 55):
`(mri_data > brain_threshold) & (mri_data <= tumor_threshold)`, per voxel. -/
def brain_mask (value brain_threshold tumor_threshold : ℚ) : Bool :=
  decide (brain_threshold < value) && decide (value ≤ tumor_threshold)

/-- Voxelwise `tumor_mask` (src/app.py line 56): `mri_data > tumor_threshold`, per voxel. -/
def tumor_mask (value tumor_threshold : ℚ) : Bool :=
  decide (tumor_threshold < value)

/-- A labelled point: voxel coordinates together with the voxel's intensity,
as assembled by `np.where(mask)` plus the fancy-indexing gather
`mri_data[x, y, z]` (src/app.py lines 58-59 and 68-69). -/
abbrev Pt := ℕ × ℕ × ℕ × ℚ

/-- Dummy point used as the (never reached) out-of-range default of list
indexing. -/
def pt0 : Pt := (0, 0, 0, 0)

/-- The point set of a per-value mask: coordinates satisfying the mask in
`np.where` scan order, each paired with its intensity. -/
def pointSet (vol : Volume) (mask : ℚ → Bool) : List Pt :=
  (vol.coords.filter fun c => mask (vol.data c.1 c.2.1 c.2.2)).map
    fun c => (c.1, c.2.1, c.2.2, vol.data c.1 c.2.1 c.2.2)

/-- The unsampled brain-tissue point set (src/app.py lines 55, 58-59). -/
def brainPoints (vol : Volume) (brain_threshold tumor_threshold : ℚ) : List Pt :=
  pointSet vol fun v => brain_mask v brain_threshold tumor_threshold

/-- The unsampled tumor point set (src/app.py lines 56, 68-69). -/
def tumorPoints (vol : Volume) (tumor_threshold : ℚ) : List Pt :=
  pointSet vol fun v => tumor_mask v tumor_threshold

/-- One per-class sampling step (src/app.py lines 61-66 and 71-76):
`num_points = max(100, int(len * ratio))`; a subsample of that size is
taken only when it is strictly smaller than the population.  `idx` stands
for the array returned by `np.random.choice(len, num_points, replace=False)`. -/
def sampleStep (pts : List Pt) ( ratio : ℚ) (idx : List ℕ) : List Pt :=
  if pts.length > 0 then
    let num_points : ℕ := max 100 (pyInt ((pts.length : ℚ) * ratio)).toNat
    if num_points < pts.length then idx.map (fun i => pts.getD i pt0) else pts
  else pts

/-- The classification and sampling core of `visualize_3d_mri`
(src/app.py lines 53-76), taken after normalization: masks, `np.where`
extraction, and independent per-class subsampling, with the tumor class's
target computed as `int(len(x_tumor) * sample_ratio * 2)`.
`brainIdx` and `tumorIdx` stand for the two `np.random.choice` draws. -/
def visualize_3d_mri_points (vol : Volume)
    (brain_threshold tumor_threshold sample_ratio : ℚ)
    (brainIdx tumorIdx : List ℕ) : List Pt × List Pt :=
  let bpts := brainPoints vol brain_threshold tumor_threshold
  let bres :=
    if bpts.length > 0 then
      let num_points : ℕ := max 100 (pyInt ((bpts.length : ℚ) * sample_ratio)).toNat
      if num_points < bpts.length then brainIdx.map (fun i => bpts.getD i pt0) else bpts
    else bpts
  let tpts := tumorPoints vol tumor_threshold
  let tres :=
    if tpts.length > 0 then
      let num_points : ℕ := max 100 (pyInt ((tpts.length : ℚ) * sample_ratio * 2)).toNat
      if num_points < tpts.length then tumorIdx.map (fun i => tpts.getD i pt0) else tpts
    else tpts
  (bres, tres)

/-- The properties `np.random.choice(pts.length, n, replace=False)`
guarantees of its result: indices are distinct and in range. -/
def ChoiceOK (idx : List ℕ) (len : ℕ) : Prop :=
  idx.Nodup ∧ ∀ i ∈ idx, i < len

/-- The three principal axes a slice can be taken along. -/
inductive Axis | X | Y | Z
deriving DecidableEq

/-- The extent of the volume along an axis (`mri_data.shape[axis]`). -/
def axisSize (vol : Volume) : Axis → ℕ
  | .X => vol.nx
  | .Y => vol.ny
  | .Z => vol.nz

/-- Slice extraction as performed by the app (src/app.py lines 36-38 and
163-180): `mri_data[i,:,:].T` for the sagittal view, `mri_data[:,i,:].T`
for the coronal view, and `mri_data[:,:,i]` for the axial view, as a list
of rows. -/
def extract_slice (vol : Volume) (a : Axis) (i : ℕ) : List (List ℚ) :=
  match a with
  | .X => (List.range vol.nz).map fun c => (List.range vol.ny).map fun b => vol.data i b c
  | .Y => (List.range vol.nz).map fun c => (List.range vol.nx).map fun a => vol.data a i c
  | .Z => (List.range vol.nx).map fun a => (List.range vol.ny).map fun b => vol.data a b i

/-- The overlay mask computed by `overlay_tumor` (src/app.py lines 20-22):
`tumor_mask = slice_data > tumor_threshold`, elementwise over the slice. -/
def overlay_tumor_mask (slice_data : List (List ℚ)) (tumor_threshold : ℚ) :
    List (List Bool) :=
  slice_data.map fun row => row.map fun v => tumor_mask v tumor_threshold

/-- A 2x1x1 volume with two distinct values, used as a concrete
non-degenerate input. -/
def twoVol : Volume := ⟨2, 1, 1, fun x _ _ => if x = 0 then 0 else 4⟩

/-- A 2x1x1 non-degenerate volume containing a negative intensity, on which
max-only normalization leaves the unit interval. -/
def negVol : Volume := ⟨2, 1, 1, fun x _ _ => if x = 0 then -1 else 3⟩

section Helpers

theorem rmin_le_left (a b : ℚ) : rmin a b ≤ a := by
  unfold rmin; split <;> simp [*]

theorem rmin_le_right (a b : ℚ) : rmin a b ≤ b := by
  unfold rmin; split
  · exact le_refl b
  · exact le_of_not_le (by assumption)

theorem le_rmax_left (a b : ℚ) : a ≤ rmax a b := by
  unfold rmax; split <;> simp [*]

theorem le_rmax_right (a b : ℚ) : b ≤ rmax a b := by
  unfold rmax; split
  · exact le_refl b
  · exact le_of_not_le (by assumption)

theorem foldl_rmin_le_init (xs : List ℚ) (x : ℚ) : xs.foldl rmin x ≤ x := by
  induction xs generalizing x with
  | nil => exact le_refl x
  | cons y ys ih =>
    exact le_trans (ih (rmin x y)) (rmin_le_left x y)

theorem foldl_rmin_le_mem (xs : List ℚ) : ∀ x a : ℚ, a ∈ xs →
    xs.foldl rmin x ≤ a := by
  induction xs with
  | nil => intro x a ha; cases ha
  | cons y ys ih =>
    intro x a ha
    rcases List.mem_cons.mp ha with h | h
    · subst h
      exact le_trans (foldl_rmin_le_init ys (rmin x a)) (rmin_le_right x a)
    · exact ih (rmin x y) a h

theorem init_le_foldl_rmax (xs : List ℚ) (x : ℚ) : x ≤ xs.foldl rmax x := by
  induction xs generalizing x with
  | nil => exact le_refl x
  | cons y ys ih =>
    exact le_trans (le_rmax_left x y) (ih (rmax x y))

theorem mem_le_foldl_rmax (xs : List ℚ) : ∀ x a : ℚ, a ∈ xs →
    a ≤ xs.foldl rmax x := by
  induction xs with
  | nil => intro x a ha; cases ha
  | cons y ys ih =>
    intro x a ha
    rcases List.mem_cons.mp ha with h | h
    · subst h
      exact le_trans (le_rmax_right x a) (init_le_foldl_rmax ys (rmax x a))
    · exact ih (rmax x y) a h

theorem mem_coords {vol : Volume} {c : ℕ × ℕ × ℕ} :
    c ∈ vol.coords ↔ c.1 < vol.nx ∧ c.2.1 < vol.ny ∧ c.2.2 < vol.nz := by
  obtain ⟨x, y, z⟩ := c
  simp only [Volume.coords, List.mem_flatMap, List.mem_map, List.mem_range]
  constructor
  · rintro ⟨a, ha, b, hb, w, hw, heq⟩
    obtain ⟨rfl, rfl, rfl⟩ := Prod.mk.injEq .. ▸ (by
      injection heq with h1 h2
      injection h2 with h2 h3
      exact ⟨h1, h2, h3⟩ : a = x ∧ b = y ∧ w = z)
    exact ⟨ha, hb, hw⟩
  · rintro ⟨hx, hy, hz⟩
    exact ⟨x, hx, y, hy, z, hz, rfl⟩

theorem value_mem_values {vol : Volume} {x y z : ℕ}
    (hx : x < vol.nx) (hy : y < vol.ny) (hz : z < vol.nz) :
    vol.data x y z ∈ vol.values := by
  have : ((x, y, z) : ℕ × ℕ × ℕ) ∈ vol.coords := mem_coords.mpr ⟨hx, hy, hz⟩
  exact List.mem_map.mpr ⟨(x, y, z), this, rfl⟩

theorem npMin_le_value {vol : Volume} {x y z : ℕ}
    (hx : x < vol.nx) (hy : y < vol.ny) (hz : z < vol.nz) :
    npMin vol ≤ vol.data x y z := by
  have hmem := value_mem_values hx hy hz
  have hv : ∃ v vs, vol.values = v :: vs := by
    cases h : vol.values with
    | nil => rw [h] at hmem; cases hmem
    | cons v vs => exact ⟨v, vs, rfl⟩
  obtain ⟨v, vs, hv⟩ := hv
  rw [hv] at hmem
  unfold npMin
  rw [hv]
  show List.foldl rmin v vs ≤ vol.data x y z
  rcases List.mem_cons.mp hmem with h | h
  · rw [← h]; exact foldl_rmin_le_init vs _
  · exact foldl_rmin_le_mem vs v _ h

theorem value_le_npMax {vol : Volume} {x y z : ℕ}
    (hx : x < vol.nx) (hy : y < vol.ny) (hz : z < vol.nz) :
    vol.data x y z ≤ npMax vol := by
  have hmem := value_mem_values hx hy hz
  have hv : ∃ v vs, vol.values = v :: vs := by
    cases h : vol.values with
    | nil => rw [h] at hmem; cases hmem
    | cons v vs => exact ⟨v, vs, rfl⟩
  obtain ⟨v, vs, hv⟩ := hv
  rw [hv] at hmem
  unfold npMax
  rw [hv]
  show vol.data x y z ≤ List.foldl rmax v vs
  rcases List.mem_cons.mp hmem with h | h
  · rw [← h]; exact init_le_foldl_rmax vs _
  · exact mem_le_foldl_rmax vs v _ h

end Helpers

/-- C1: for every voxel value and every valid threshold pair, exactly one of
the three classes applies: Background (`value ≤ tissue_threshold`, i.e. both
source masks false), Tissue (`brain_mask` true), Region (`tumor_mask` true);
the classes are exhaustive and mutually exclusive. -/
theorem voxel_classification_trichotomy (v t r : ℚ)
    (h0 : 0 ≤ t) (h1 : t < r) (h2 : r ≤ 1) :
    (v ≤ t ∧ brain_mask v t r = false ∧ tumor_mask v r = false) ∨
    (¬ v ≤ t ∧ brain_mask v t r = true ∧ tumor_mask v r = false) ∨
    (¬ v ≤ t ∧ brain_mask v t r = false ∧ tumor_mask v r = true) := by
  rcases le_or_lt v t with hv | hv
  · left
    refine ⟨hv, ?_, ?_⟩
    · simp [brain_mask, not_lt.mpr hv]
    · simp [tumor_mask]; linarith
  · rcases le_or_lt v r with hr | hr
    · right; left
      refine ⟨not_le.mpr hv, ?_, ?_⟩
      · simp [brain_mask, hv, hr]
      · simp [tumor_mask]; linarith
    · right; right
      refine ⟨not_le.mpr hv, ?_, ?_⟩
      · simp [brain_mask, hv, not_le.mpr hr]
      · simp [tumor_mask, hr]

/-- Witness for C1 at `v = 2`, thresholds `(0, 1)`: the value lands in the
Region class and in no other. -/
theorem voxel_classification_trichotomy_witness :
    ((2 : ℚ) ≤ 0 ∧ brain_mask 2 0 1 = false ∧ tumor_mask 2 1 = false) ∨
    (¬ (2 : ℚ) ≤ 0 ∧ brain_mask 2 0 1 = true ∧ tumor_mask 2 1 = false) ∨
    (¬ (2 : ℚ) ≤ 0 ∧ brain_mask 2 0 1 = false ∧ tumor_mask 2 1 = true) :=
  voxel_classification_trichotomy 2 0 1 (by decide) (by decide) (by decide)

theorem length_filter_mono {α} (l : List α) (p q : α → Bool)
    (h : ∀ a ∈ l, p a = true → q a = true) :
    (l.filter p).length ≤ (l.filter q).length := by
  induction l with
  | nil => simp
  | cons x xs ih =>
    have hx := h x (List.mem_cons_self x xs)
    have ih' := ih fun a ha hp => h a (List.mem_cons_of_mem _ ha) hp
    by_cases hp : p x = true
    · rw [List.filter_cons_of_pos hp, List.filter_cons_of_pos (hx hp)]
      simpa using ih'
    · rw [List.filter_cons_of_neg (by simpa using hp)]
      cases hq : q x
      · rw [List.filter_cons_of_neg (by simp [hq])]
        exact ih'
      · rw [List.filter_cons_of_pos hq]
        exact le_trans ih' (Nat.le_succ _)

/-- C8: raising `region_threshold` with `tissue_threshold` fixed never
increases the unsampled Region point set and never decreases the unsampled
Tissue point set. -/
theorem threshold_monotonicity (vol : Volume) (t r r' : ℚ) (h : r ≤ r') :
    (tumorPoints vol r').length ≤ (tumorPoints vol r).length ∧
    (brainPoints vol t r).length ≤ (brainPoints vol t r').length := by
  constructor
  · unfold tumorPoints pointSet
    rw [List.length_map, List.length_map]
    apply length_filter_mono
    intro c _ hc
    simp only [tumor_mask, decide_eq_true_eq] at hc ⊢
    linarith
  · unfold brainPoints pointSet
    rw [List.length_map, List.length_map]
    apply length_filter_mono
    intro c _ hc
    simp only [brain_mask, Bool.and_eq_true, decide_eq_true_eq] at hc ⊢
    exact ⟨hc.1, le_trans hc.2 h⟩

/-- Witness for C8 on the two-valued volume with `r = 1` raised to `r' = 3`. -/
theorem threshold_monotonicity_witness :
    (tumorPoints twoVol 3).length ≤ (tumorPoints twoVol 1).length ∧
    (brainPoints twoVol 0 1).length ≤ (brainPoints twoVol 0 3).length :=
  threshold_monotonicity twoVol 0 1 3 (by decide)

/-- The two branches of `visualize_3d_mri` are each an instance of the one
generic sampling step, the tumor branch at twice the caller's ratio. -/
theorem visualize_eq_sampleStep (vol : Volume) (t r s : ℚ)
    (bIdx tIdx : List ℕ) :
    visualize_3d_mri_points vol t r s bIdx tIdx =
      (sampleStep (brainPoints vol t r) s bIdx,
       sampleStep (tumorPoints vol r) (2 * s) tIdx) := by
  have h2 : ((tumorPoints vol r).length : ℚ) * s * 2 =
      ((tumorPoints vol r).length : ℚ) * (2 * s) := by ring
  simp only [visualize_3d_mri_points, sampleStep]
  rw [h2]

/-- C7: the Region class is sampled at an effective ratio of `2 × sample_ratio`
while the Tissue class is sampled at `sample_ratio`, each class independently
of the other (each output depends only on its own class's point set and its
own random draw). -/
theorem region_sampled_at_double_ratio (vol : Volume) (t r s : ℚ)
    (bIdx tIdx : List ℕ) :
    visualize_3d_mri_points vol t r s bIdx tIdx =
      (sampleStep (brainPoints vol t r) s bIdx,
       sampleStep (tumorPoints vol r) (2 * s) tIdx) :=
  visualize_eq_sampleStep vol t r s bIdx tIdx

/-- C6: a volume in which no voxel exceeds `region_threshold` yields an empty
Region point set, and the pipeline returns normally (the model is a total
function on this input; nothing in src/app.py lines 68-93 raises here — the
empty class merely skips its sampling branch). -/
theorem empty_region_no_error (vol : Volume) (t r s : ℚ)
    (bIdx tIdx : List ℕ)
    (h : ∀ x y z, x < vol.nx → y < vol.ny → z < vol.nz → vol.data x y z ≤ r) :
    tumorPoints vol r = [] ∧
    (visualize_3d_mri_points vol t r s bIdx tIdx).2 = [] := by
  have ht : tumorPoints vol r = [] := by
    unfold tumorPoints pointSet
    rw [List.filter_eq_nil_iff.mpr, List.map_nil]
    intro c hc
    obtain ⟨hx, hy, hz⟩ := mem_coords.mp hc
    simp only [tumor_mask, decide_eq_true_eq, not_lt]
    exact h _ _ _ hx hy hz
  refine ⟨ht, ?_⟩
  rw [visualize_eq_sampleStep, ht]
  rfl

/-- Witness for C6: the flat volume with `r = 7` has no voxel above the
threshold, and the Region output is empty. -/
theorem empty_region_no_error_witness :
    tumorPoints flatVol 7 = [] ∧
    (visualize_3d_mri_points flatVol 0 7 1 [] []).2 = [] :=
  empty_region_no_error flatVol 0 7 1 [] []
    (fun _ _ _ _ _ _ => le_refl 7)

/-- C9: the slice and its overlay mask have identical 2-D shape, and the mask
is pointwise `Slice[ri][ci] > region_threshold`; only the high-intensity
(tumor) comparison appears, never a tissue-level one. -/
theorem slice_overlay_consistency (vol : Volume) (a : Axis) (i : ℕ) (r : ℚ)
    (hi : i < axisSize vol a) :
    (overlay_tumor_mask (extract_slice vol a i) r).length =
      (extract_slice vol a i).length ∧
    (∀ ri, ri < (extract_slice vol a i).length →
      ((overlay_tumor_mask (extract_slice vol a i) r).getD ri []).length =
        ((extract_slice vol a i).getD ri []).length) ∧
    (∀ ri ci, ri < (extract_slice vol a i).length →
      ci < ((extract_slice vol a i).getD ri []).length →
      ((overlay_tumor_mask (extract_slice vol a i) r).getD ri []).getD ci false =
        decide (r < ((extract_slice vol a i).getD ri []).getD ci 0)) := by
  set s := extract_slice vol a i with hs
  have hrow : ∀ ri, ri < s.length →
      (overlay_tumor_mask s r).getD ri [] = (s.getD ri []).map fun v => tumor_mask v r := by
    intro ri hri
    rw [overlay_tumor_mask, List.getD_eq_getElem?_getD, List.getElem?_map,
      List.getElem?_eq_getElem hri, List.getD_eq_getElem?_getD,
      List.getElem?_eq_getElem hri]
    rfl
  refine ⟨List.length_map _ _, ?_, ?_⟩
  · intro ri hri
    rw [hrow ri hri, List.length_map]
  · intro ri ci hri hci
    have hL : ((s.getD ri []).map fun v => tumor_mask v r).getD ci false =
        tumor_mask ((s.getD ri [])[ci]) r := by
      rw [List.getD_eq_getElem?_getD, List.getElem?_map,
        List.getElem?_eq_getElem hci]
      rfl
    have hR : (s.getD ri []).getD ci 0 = (s.getD ri [])[ci] := by
      rw [List.getD_eq_getElem?_getD, List.getElem?_eq_getElem hci]
      rfl
    rw [hrow ri hri, hL, hR]
    rfl

/-- Range and endpoint properties of the min-max `normalize_data` path of
src/app.py, on a non-degenerate volume (strictly larger max than min). -/
theorem normalize_range (vol : Volume) (hnd : npMin vol < npMax vol) :
    (∀ x y z, x < vol.nx → y < vol.ny → z < vol.nz →
      ∃ w, normalize_data vol x y z = some w ∧ 0 ≤ w ∧ w ≤ 1) ∧
    (∀ x y z, x < vol.nx → y < vol.ny → z < vol.nz →
      vol.data x y z = npMin vol → normalize_data vol x y z = some 0) ∧
    (∀ x y z, x < vol.nx → y < vol.ny → z < vol.nz →
      vol.data x y z = npMax vol → normalize_data vol x y z = some 1) := by
  have hd : npMax vol - npMin vol > 0 := sub_pos.mpr hnd
  have hd0 : npMax vol - npMin vol ≠ 0 := ne_of_gt hd
  refine ⟨?_, ?_, ?_⟩
  · intro x y z hx hy hz
    refine ⟨(vol.data x y z - npMin vol) / (npMax vol - npMin vol), ?_, ?_, ?_⟩
    · rw [normalize_data, npDiv, if_neg hd0]
    · exact div_nonneg (sub_nonneg.mpr (npMin_le_value hx hy hz)) (le_of_lt hd)
    · rw [div_le_one hd]
      exact sub_le_sub_right (value_le_npMax hx hy hz) _
  · intro x y z _ _ _ hmin
    rw [normalize_data, npDiv, if_neg hd0, hmin, sub_self, zero_div]
  · intro x y z _ _ _ hmax
    rw [normalize_data, npDiv, if_neg hd0, hmax, div_self hd0]

/-- C3 counterexample: the claim's cited streamlit.py normalizer divides by
the maximum alone; on the non-degenerate volume holding values -1 and 3 the
voxel at (0,0,0) normalizes to -1/3, which lies outside `[0, 1]` (and the
minimum-attaining voxel does not map to 0). -/
theorem normalize_range_counterexample :
    npMin negVol < npMax negVol ∧
    save_visualization_normalize negVol 0 0 0 = some (-1/3) ∧
    ¬ ((0 : ℚ) ≤ -1/3 ∧ (-1/3 : ℚ) ≤ 1) := by
  have hmax : npMax negVol = 3 := by decide
  have hdata : negVol.data 0 0 0 = -1 := by decide
  refine ⟨by decide, ?_, by norm_num⟩
  rw [save_visualization_normalize, npDiv, hmax, hdata]
  norm_num

/-- C3 (amended): on every non-degenerate volume, the min-max
`normalize_data` of src/app.py yields values in `[0, 1]` with the minimum-
and maximum-attaining voxels mapping to exactly 0 and exactly 1; the other
cited normalizer, `save_visualization` of src/streamlit.py, divides by the
maximum alone: it maps maximum-attaining voxels to exactly 1 whenever the
maximum is nonzero, but its output is confined to `[0, 1]` only when the
volume's minimum is nonnegative, and it does not map the minimum to 0 in
general. -/
theorem normalizer_range_amended (vol : Volume) (hnd : npMin vol < npMax vol) :
    (∀ x y z, x < vol.nx → y < vol.ny → z < vol.nz →
      ∃ w, normalize_data vol x y z = some w ∧ 0 ≤ w ∧ w ≤ 1) ∧
    (∀ x y z, x < vol.nx → y < vol.ny → z < vol.nz →
      vol.data x y z = npMin vol → normalize_data vol x y z = some 0) ∧
    (∀ x y z, x < vol.nx → y < vol.ny → z < vol.nz →
      vol.data x y z = npMax vol → normalize_data vol x y z = some 1) ∧
    (0 ≤ npMin vol → ∀ x y z, x < vol.nx → y < vol.ny → z < vol.nz →
      ∃ w, save_visualization_normalize vol x y z = some w ∧ 0 ≤ w ∧ w ≤ 1) ∧
    (npMax vol ≠ 0 → ∀ x y z, x < vol.nx → y < vol.ny → z < vol.nz →
      vol.data x y z = npMax vol → save_visualization_normalize vol x y z = some 1) := by
  obtain ⟨h1, h2, h3⟩ := normalize_range vol hnd
  refine ⟨h1, h2, h3, ?_, ?_⟩
  · intro h0 x y z hx hy hz
    have hmaxpos : 0 < npMax vol := lt_of_le_of_lt h0 hnd
    refine ⟨vol.data x y z / npMax vol, ?_, ?_, ?_⟩
    · rw [save_visualization_normalize, npDiv, if_neg (ne_of_gt hmaxpos)]
    · exact div_nonneg (le_trans h0 (npMin_le_value hx hy hz)) (le_of_lt hmaxpos)
    · rw [div_le_one hmaxpos]
      exact value_le_npMax hx hy hz
  · intro hm x y z hx hy hz hmax
    rw [save_visualization_normalize, npDiv, if_neg hm, hmax, div_self hm]

/-- Witness for C3 (amended) at the two-valued volume (min 0, max 4). -/
theorem normalizer_range_amended_witness :
    ((∀ x y z, x < twoVol.nx → y < twoVol.ny → z < twoVol.nz →
      ∃ w, normalize_data twoVol x y z = some w ∧ 0 ≤ w ∧ w ≤ 1) ∧
    (∀ x y z, x < twoVol.nx → y < twoVol.ny → z < twoVol.nz →
      twoVol.data x y z = npMin twoVol → normalize_data twoVol x y z = some 0) ∧
    (∀ x y z, x < twoVol.nx → y < twoVol.ny → z < twoVol.nz →
      twoVol.data x y z = npMax twoVol → normalize_data twoVol x y z = some 1) ∧
    (0 ≤ npMin twoVol → ∀ x y z, x < twoVol.nx → y < twoVol.ny → z < twoVol.nz →
      ∃ w, save_visualization_normalize twoVol x y z = some w ∧ 0 ≤ w ∧ w ≤ 1) ∧
    (npMax twoVol ≠ 0 → ∀ x y z, x < twoVol.nx → y < twoVol.ny → z < twoVol.nz →
      twoVol.data x y z = npMax twoVol →
        save_visualization_normalize twoVol x y z = some 1)) :=
  normalizer_range_amended twoVol (by decide)

/-- C4 (code behaviour at the failing input): on a flat volume the source's
`normalize_data` performs no degenerate-range check; every voxel is divided
by zero, so the function silently yields an all-NaN volume (`none` at every
coordinate) instead of raising any error. -/
theorem normalize_flat_all_nan :
    ∀ x y z, normalize_data flatVol x y z = none := by
  intro x y z
  have h1 : npMin flatVol = 7 := by decide
  have h2 : npMax flatVol = 7 := by decide
  simp [normalize_data, h1, h2, npDiv, sub_self]

/-- C5 (code behaviour at the failing input): with
`tissue_threshold = 1 ≥ region_threshold = 0` and `sample_ratio = -1`, the
classification core of `visualize_3d_mri` performs no validation at all: it
returns normally, with an empty Tissue set (the contradictory mask matches
nothing) and the full Region set, instead of raising
`InvalidThresholdError` or `InvalidSampleRatioError`. -/
theorem invalid_params_no_error :
    visualize_3d_mri_points flatVol 1 0 (-1) [] [] =
      ([], [(0, 0, 0, 7), (1, 0, 0, 7)]) := by
  have hb : brainPoints flatVol 1 0 = [] := by decide
  have ht : tumorPoints flatVol 0 = [(0, 0, 0, 7), (1, 0, 0, 7)] := by decide
  have hc : (((2 : ℕ) : ℚ) * -1 * 2) = ((-4 : ℤ) : ℚ) := by norm_num
  simp only [visualize_3d_mri_points, hb, ht]
  norm_num [hc, pyInt_intCast]

/-- C2 (amended): for population `P` and ratio `r` in `(0, 1]`, the sampled
size is exactly `min P (max 100 (int (P * r)))` where `int` is Python's
truncation toward zero (not rounding to nearest), and the output never
exceeds the population: the subsample is taken only when the target is
strictly below `P`. -/
theorem sampling_size_formula (pts : List Pt) (r : ℚ) (idx : List ℕ)
    (hr0 : 0 < r) (hr1 : r ≤ 1)
    (hidx : max 100 (pyInt ((pts.length : ℚ) * r)).toNat < pts.length →
      idx.length = max 100 (pyInt ((pts.length : ℚ) * r)).toNat) :
    (sampleStep pts r idx).length =
      min pts.length (max 100 (pyInt ((pts.length : ℚ) * r)).toNat) ∧
    (sampleStep pts r idx).length ≤ pts.length := by
  simp only [sampleStep]
  by_cases h0 : pts.length > 0
  · rw [if_pos h0]
    by_cases hlt : max 100 (pyInt ((pts.length : ℚ) * r)).toNat < pts.length
    · rw [if_pos hlt, List.length_map, hidx hlt]
      exact ⟨(Nat.min_eq_right (le_of_lt hlt)).symm, le_of_lt hlt⟩
    · rw [if_neg hlt]
      exact ⟨(Nat.min_eq_left (le_of_not_lt hlt)).symm, le_refl _⟩
  · rw [if_neg h0]
    have hz : pts.length = 0 := Nat.eq_zero_of_not_pos h0
    rw [hz]
    exact ⟨(Nat.zero_min _).symm, le_refl _⟩

/-- Witness for C2 (amended) on the empty point set with ratio 1. -/
theorem sampling_size_formula_witness :
    (sampleStep [] 1 []).length =
      min ([] : List Pt).length
        (max 100 (pyInt ((([] : List Pt).length : ℚ) * 1)).toNat) ∧
    (sampleStep [] 1 []).length ≤ ([] : List Pt).length :=
  sampling_size_formula [] 1 [] (by decide) (by decide) (by simp)

/-- C2 counterexample: with population 2000 and ratio 9/128, the code keeps
`int(2000 * 9/128) = int(140.625) = 140` points, while the claimed
`min(P, max(100, round(P*r)))` is 141; the claim's rounding disagrees with
the code's truncation. -/
theorem sampling_size_round_counterexample :
    ((sampleStep (List.replicate 2000 pt0) (9/128) (List.range 140)).length : ℤ) ≠
      min 2000 (max 100 (round ((2000 : ℚ) * (9/128)))) := by
  have hpy : (pyInt (((2000 : ℕ) : ℚ) * (9/128))).toNat = 140 := by
    have hq : (((2000 : ℕ) : ℚ) * (9/128)) = ((1125 : ℤ) : ℚ) / ((8 : ℕ) : ℚ) := by
      norm_num
    rw [hq, pyInt_eq_floor _ (by positivity), Rat.floor_intCast_div_natCast]
    decide
  have hL : (sampleStep (List.replicate 2000 pt0) (9/128) (List.range 140)).length
      = 140 := by
    simp only [sampleStep, List.length_replicate, hpy]
    norm_num
  have hR : min 2000 (max 100 (round ((2000 : ℚ) * (9/128)))) = (141 : ℤ) := by
    have hq : ((2000 : ℚ) * (9/128)) + 1/2 = ((1129 : ℤ) : ℚ) / ((8 : ℕ) : ℚ) := by
      norm_num
    rw [round_eq, hq, Rat.floor_intCast_div_natCast]
    decide
  rw [hL, hR]
  decide

theorem coords_eq_product (vol : Volume) :
    vol.coords =
      (List.range vol.nx).product ((List.range vol.ny).product (List.range vol.nz)) := by
  unfold Volume.coords List.product
  simp only [List.map_flatMap, List.map_map]
  rfl

theorem coords_nodup (vol : Volume) : vol.coords.Nodup := by
  rw [coords_eq_product]
  exact (List.nodup_range _).product ((List.nodup_range _).product (List.nodup_range _))

theorem pointSet_nodup (vol : Volume) (mask : ℚ → Bool) :
    (pointSet vol mask).Nodup := by
  refine List.Nodup.map ?_ ((coords_nodup vol).filter _)
  rintro ⟨a, b, c⟩ ⟨d, e, g⟩ h
  simp only [Prod.mk.injEq] at h
  obtain ⟨h1, h2, h3, _⟩ := h
  simp [h1, h2, h3]

theorem pointSet_pairing (vol : Volume) (mask : ℚ → Bool) :
    ∀ p ∈ pointSet vol mask, vol.data p.1 p.2.1 p.2.2.1 = p.2.2.2 := by
  intro p hp
  obtain ⟨c, _, rfl⟩ := List.mem_map.mp hp
  rfl

theorem getD_eq_get {pts : List Pt} {i : ℕ} (h : i < pts.length) :
    pts.getD i pt0 = pts.get ⟨i, h⟩ := by
  rw [List.getD_eq_getElem?_getD, List.getElem?_eq_getElem h]
  rfl

theorem sampleStep_nodup_subset {pts : List Pt} ( ratio : ℚ) {idx : List ℕ}
    (hpts : pts.Nodup) (hidx : ChoiceOK idx pts.length) :
    (sampleStep pts ratio idx).Nodup ∧ ∀ p ∈ sampleStep pts ratio idx, p ∈ pts := by
  have hsampled : (idx.map fun i => pts.getD i pt0).Nodup ∧
      ∀ p ∈ idx.map fun i => pts.getD i pt0, p ∈ pts := by
    constructor
    · refine List.Nodup.map_on ?_ hidx.1
      intro i hi j hj heq
      have hi' := hidx.2 i hi
      have hj' := hidx.2 j hj
      rw [getD_eq_get hi', getD_eq_get hj'] at heq
      have := List.nodup_iff_injective_get.mp hpts heq
      exact congrArg Fin.val this
    · intro p hp
      obtain ⟨i, hi, rfl⟩ := List.mem_map.mp hp
      rw [getD_eq_get (hidx.2 i hi)]
      exact List.get_mem pts _ _
  simp only [sampleStep]
  by_cases h0 : pts.length > 0
  · rw [if_pos h0]
    by_cases hlt : max 100 (pyInt ((pts.length : ℚ) * ratio)).toNat < pts.length
    · rw [if_pos hlt]
      exact hsampled
    · rw [if_neg hlt]
      exact ⟨hpts, fun p hp => hp⟩
  · rw [if_neg h0]
    exact ⟨hpts, fun p hp => hp⟩

/-- C10: for each class, the sampled output is a duplicate-free subset of the
unsampled class point set (indices drawn without replacement), and every
retained tuple keeps its coordinate-intensity pairing:
`v = normalized_volume[x, y, z]`. -/
theorem sampling_no_duplicates_pairing (vol : Volume) (t r s : ℚ)
    (bIdx tIdx : List ℕ)
    (hb : ChoiceOK bIdx (brainPoints vol t r).length)
    (ht : ChoiceOK tIdx (tumorPoints vol r).length) :
    (visualize_3d_mri_points vol t r s bIdx tIdx).1.Nodup ∧
    (visualize_3d_mri_points vol t r s bIdx tIdx).2.Nodup ∧
    (∀ p ∈ (visualize_3d_mri_points vol t r s bIdx tIdx).1,
      p ∈ brainPoints vol t r ∧ vol.data p.1 p.2.1 p.2.2.1 = p.2.2.2) ∧
    (∀ p ∈ (visualize_3d_mri_points vol t r s bIdx tIdx).2,
      p ∈ tumorPoints vol r ∧ vol.data p.1 p.2.1 p.2.2.1 = p.2.2.2) := by
  rw [visualize_eq_sampleStep]
  obtain ⟨hbn, hbs⟩ := sampleStep_nodup_subset s (pointSet_nodup vol _) hb
  obtain ⟨htn, hts⟩ := sampleStep_nodup_subset (2 * s) (pointSet_nodup vol _) ht
  exact ⟨hbn, htn,
    fun p hp => ⟨hbs p hp, pointSet_pairing vol _ p (hbs p hp)⟩,
    fun p hp => ⟨hts p hp, pointSet_pairing vol _ p (hts p hp)⟩⟩

/-- Witness for C10 on the two-valued volume, with the Region class sampled
through the index draw `[0]`. -/
theorem sampling_no_duplicates_pairing_witness :
    (visualize_3d_mri_points twoVol 0 1 1 [] [0]).1.Nodup ∧
    (visualize_3d_mri_points twoVol 0 1 1 [] [0]).2.Nodup ∧
    (∀ p ∈ (visualize_3d_mri_points twoVol 0 1 1 [] [0]).1,
      p ∈ brainPoints twoVol 0 1 ∧ twoVol.data p.1 p.2.1 p.2.2.1 = p.2.2.2) ∧
    (∀ p ∈ (visualize_3d_mri_points twoVol 0 1 1 [] [0]).2,
      p ∈ tumorPoints twoVol 1 ∧ twoVol.data p.1 p.2.1 p.2.2.1 = p.2.2.2) :=
  sampling_no_duplicates_pairing twoVol 0 1 1 [] [0]
    ⟨by decide, by decide⟩ ⟨by decide, by decide⟩

/-- Witness for C9: sagittal slice 0 of the two-valued volume with
threshold 1. -/
theorem slice_overlay_consistency_witness :
    (overlay_tumor_mask (extract_slice twoVol Axis.X 0) 1).length =
      (extract_slice twoVol Axis.X 0).length ∧
    (∀ ri, ri < (extract_slice twoVol Axis.X 0).length →
      ((overlay_tumor_mask (extract_slice twoVol Axis.X 0) 1).getD ri []).length =
        ((extract_slice twoVol Axis.X 0).getD ri []).length) ∧
    (∀ ri ci, ri < (extract_slice twoVol Axis.X 0).length →
      ci < ((extract_slice twoVol Axis.X 0).getD ri []).length →
      ((overlay_tumor_mask (extract_slice twoVol Axis.X 0) 1).getD ri []).getD ci false =
        decide ((1 : ℚ) < ((extract_slice twoVol Axis.X 0).getD ri []).getD ci 0)) :=
  slice_overlay_consistency twoVol Axis.X 0 1 (by decide)
